import Mathlib

/-!
Verification of the `CTomlPlusPlus` bridge (`Sources/CTomlPlusPlus/ctoml.cpp`,
`Sources/CTomlPlusPlus/include/ctoml.h`).

The C++ translation unit flattens a parsed TOML document tree (produced by the
external `toml++` parser, treated as a black box) into a C-ABI tagged-union tree
whose memory is owned by a single arena object (`CTomlTable`).

Shallow embedding conventions:

* Byte strings (`std::string` contents, which may contain embedded zero bytes)
  are `List UInt8`; `size()` is the list length, so lengths are exact byte
  counts with no terminator involved.
* Pointers are modelled as stable identifiers (`Option Nat`, `none` = null):
  a string pointer indexes the arena's `strings` store, a `CTomlNode*` array
  pointer indexes `nodeBlocks`, a `CTomlString*` array pointer indexes
  `keyBlocks`.  This reflects the C++ guarantees actually relied upon:
  `std::list::push_back` never invalidates addresses of existing elements,
  and a `malloc`ed block never moves.
* A `malloc`ed block is a list of cells `Option CTomlNode` (resp.
  `Option CTomlString`); a cell is `none` while its contents are
  indeterminate (never yet written) and `some v` once assigned.
* `throw std::bad_alloc` / `catch` is modelled with `Except`; the arena state
  is carried alongside the result in both the success and the failure case,
  since a C++ `throw` does not roll back the arena's contents.
* Fallibility of `malloc` (and of `new CTomlTable`) is modelled by an
  allocation oracle `Nat → Bool` consulted with a running tick: `false` means
  the allocation at that tick returns a null pointer, which the code turns
  into `std::bad_alloc`.
* The `data` union of a `CTomlNode` is a sum type; its state when no member
  has been written (or when the node was value-initialized / `memset` to
  zero, whose union bytes carry no active member) is collapsed to the
  constructor `none_data`.
* The C `int64_t`/`int32_t` fields are embedded as `Int` and `double` as its
  IEEE-754 bit pattern `UInt64`: the bridge only copies these values verbatim
  (the `uint16_t`/`uint8_t` → `int32_t` casts on date/time components are
  value-preserving), so no wrap-around arithmetic occurs anywhere.
-/

namespace CToml

/-- Byte strings: contents of a `std::string` (embedded `0x00` bytes allowed). -/
abbrev Bytes := List UInt8

/-- `CTomlNodeType` enum from `ctoml.h`. -/
inductive CTomlNodeType : Type where
  | CTOML_NONE
  | CTOML_STRING
  | CTOML_INTEGER
  | CTOML_FLOAT
  | CTOML_BOOLEAN
  | CTOML_DATE
  | CTOML_TIME
  | CTOML_DATETIME
  | CTOML_ARRAY
  | CTOML_TABLE
  deriving DecidableEq

/-- `CTomlDate` from `ctoml.h` (three `int32_t` fields). -/
structure CTomlDate : Type where
  year : Int
  month : Int
  day : Int
  deriving DecidableEq

/-- `CTomlTime` from `ctoml.h` (four `int32_t` fields). -/
structure CTomlTime : Type where
  hour : Int
  minute : Int
  second : Int
  nanosecond : Int
  deriving DecidableEq

/-- `CTomlDateTime` from `ctoml.h`. -/
structure CTomlDateTime : Type where
  date : CTomlDate
  time : CTomlTime
  has_offset : Bool
  offset_minutes : Int
  deriving DecidableEq

/-- `CTomlString` from `ctoml.h`: pointer plus explicit byte length.
The pointer indexes the arena's interned-string store (`none` = null). -/
structure CTomlString : Type where
  data : Option Nat
  length : Nat
  deriving DecidableEq

/-- `CTomlArrayData` from `ctoml.h`: pointer to a `CTomlNode` block, count. -/
structure CTomlArrayData : Type where
  elements : Option Nat
  count : Nat
  deriving DecidableEq

/-- `CTomlTableData` from `ctoml.h`: pointers to a key block and a value
block, plus the shared count. -/
structure CTomlTableData : Type where
  keys : Option Nat
  values : Option Nat
  count : Nat
  deriving DecidableEq

/-- The `data` union of `CTomlNode`.  `none_data` stands for the union when no
member is active (default/value-initialized or never written). -/
inductive CTomlData : Type where
  | none_data
  | string_value (s : CTomlString)
  | integer_value (i : Int)
  | float_value (bits : UInt64)
  | boolean_value (b : Bool)
  | date_value (d : CTomlDate)
  | time_value (t : CTomlTime)
  | datetime_value (dt : CTomlDateTime)
  | array_value (a : CTomlArrayData)
  | table_value (t : CTomlTableData)
  deriving DecidableEq

/-- `CTomlNode` from `ctoml.h`: a type tag plus the union. -/
structure CTomlNode : Type where
  type : CTomlNodeType
  data : CTomlData
  deriving DecidableEq

/-- The zero/value-initialized `CTomlNode` (`CTomlNode none_node{}` in
`convert_array`, and the state of `result.root` after `memset` + tag write
in `ctoml_free_result`). -/
def noneNode : CTomlNode := ⟨.CTOML_NONE, .none_data⟩

/-- A source-tree node of the external parser (`toml::node`), exposed to the
bridge only through its `is_*` / `as_*` accessors.  `arr` elements are
`Option` because `toml::array::get i` may return null for a defective/sparse
array; `other` stands for a node answering no recognized `is_*` query. -/
inductive TomlNode : Type where
  | str (s : Bytes)
  | integer (i : Int)
  | float (bits : UInt64)
  | boolean (b : Bool)
  | date (d : CTomlDate)
  | time (t : CTomlTime)
  | datetime (d : CTomlDate) (t : CTomlTime) (offset : Option Int)
  | arr (elems : List (Option TomlNode))
  | table (entries : List (Bytes × TomlNode))
  | other

/-- A tracked raw allocation in `CTomlTable::allocations` (the `void*`
vector): which heap it points into and the block id there. -/
inductive AllocPtr : Type where
  | nodes (id : Nat)
  | keys (id : Nat)
  deriving DecidableEq

/-- The `CTomlTable` storage object: the `std::list<std::string>` of interned
strings, the `malloc`ed node/key blocks with their tracked-pointer list, and
the `error_message` string. -/
structure Arena : Type where
  strings : List Bytes
  nodeBlocks : List (List (Option CTomlNode))
  keyBlocks : List (List (Option CTomlString))
  allocations : List AllocPtr
  error_message : Bytes
  deriving DecidableEq

/-- A freshly constructed `CTomlTable` (`new CTomlTable()`). -/
def Arena.empty : Arena := ⟨[], [], [], [], []⟩

/-- Conversion-time state: the arena plus the tick counting fallible
allocation calls (consulted against the allocation oracle). -/
structure ConvState : Type where
  arena : Arena
  tick : Nat
  deriving DecidableEq

/-- The bytes stored at string pointer `p` (dereferencing a pointer returned
by `store_string`). -/
def string_at (a : Arena) (p : Nat) : Option Bytes := a.strings[p]?

/-- Cell `i` of node block `b`: `none` if the block doesn't exist,
`some none` if the cell is still indeterminate, `some (some v)` if it holds
`v`. -/
def cellN (a : Arena) (b i : Nat) : Option (Option CTomlNode) :=
  match a.nodeBlocks[b]? with
  | some blk => blk[i]?
  | none => none

/-- Cell `i` of key block `b` (same reading as `cellN`). -/
def cellK (a : Arena) (b i : Nat) : Option (Option CTomlString) :=
  match a.keyBlocks[b]? with
  | some blk => blk[i]?
  | none => none

/-- `CTomlTable::store_string`: push the string onto the `std::list` and
return a `CTomlString` with the stored copy's address and exact byte size. -/
def store_string (st : ConvState) (s : Bytes) : CTomlString × ConvState :=
  let p := st.arena.strings.length
  (⟨some p, s.length⟩,
   { st with arena := { st.arena with strings := st.arena.strings ++ [s] } })

/-- The single exception kind thrown inside the conversion pass:
`throw std::bad_alloc()` when `malloc` returns null. -/
inductive ConvFault : Type where
  | badAlloc
  deriving DecidableEq

/-- The ASCII bytes of `"std::bad_alloc"`. -/
def badAllocWhat : Bytes :=
  [0x73, 0x74, 0x64, 0x3a, 0x3a, 0x62, 0x61, 0x64, 0x5f,
   0x61, 0x6c, 0x6c, 0x6f, 0x63]

/-- The ASCII bytes of the `"Out of memory"` string literal of
`ctoml_parse`. -/
def outOfMemoryMsg : Bytes :=
  [0x4f, 0x75, 0x74, 0x20, 0x6f, 0x66, 0x20, 0x6d, 0x65, 0x6d,
   0x6f, 0x72, 0x79]

/-- `what()` of the caught `std::exception`.  For `std::bad_alloc` the text
is implementation-defined (this is the usual libstdc++/libc++ text); no
claim depends on its contents, only on the message being present. -/
def fault_what : ConvFault → Bytes
  | .badAlloc => badAllocWhat

/-- `CTomlTable::alloc_nodes`: null for `count == 0`; otherwise `malloc` a
block of `count` indeterminate cells (oracle `false` at the current tick
models `malloc` returning null, turned into `std::bad_alloc`), then record
the pointer in `allocations`. -/
def alloc_nodes (oracle : Nat → Bool) (count : Nat) (st : ConvState) :
    Except ConvFault (Option Nat) × ConvState :=
  if count = 0 then
    (.ok none, st)
  else if oracle st.tick then
    let id := st.arena.nodeBlocks.length
    (.ok (some id),
     { st with
        arena := { st.arena with
          nodeBlocks := st.arena.nodeBlocks ++ [List.replicate count none],
          allocations := st.arena.allocations ++ [.nodes id] },
        tick := st.tick + 1 })
  else
    (.error .badAlloc, { st with tick := st.tick + 1 })

/-- `CTomlTable::alloc_keys`: same contract as `alloc_nodes`, in the key
heap. -/
def alloc_keys (oracle : Nat → Bool) (count : Nat) (st : ConvState) :
    Except ConvFault (Option Nat) × ConvState :=
  if count = 0 then
    (.ok none, st)
  else if oracle st.tick then
    let id := st.arena.keyBlocks.length
    (.ok (some id),
     { st with
        arena := { st.arena with
          keyBlocks := st.arena.keyBlocks ++ [List.replicate count none],
          allocations := st.arena.allocations ++ [.keys id] },
        tick := st.tick + 1 })
  else
    (.error .badAlloc, { st with tick := st.tick + 1 })

/-- Store `v` into cell `i` of node block `p` (`elements[i] = v` /
`values[i] = v` in the C++ loops; the null-pointer branch never arises there
since the loops only run when the count is positive). -/
def write_node (st : ConvState) (p : Option Nat) (i : Nat) (v : CTomlNode) :
    ConvState :=
  match p with
  | none => st
  | some b =>
    match st.arena.nodeBlocks[b]? with
    | some blk =>
      { st with arena := { st.arena with
          nodeBlocks := st.arena.nodeBlocks.set b (blk.set i (some v)) } }
    | none => st

/-- Store `v` into cell `i` of key block `p` (`keys[i] = v`). -/
def write_key (st : ConvState) (p : Option Nat) (i : Nat) (v : CTomlString) :
    ConvState :=
  match p with
  | none => st
  | some b =>
    match st.arena.keyBlocks[b]? with
    | some blk =>
      { st with arena := { st.arena with
          keyBlocks := st.arena.keyBlocks.set b (blk.set i (some v)) } }
    | none => st

mutual

/-- `convert_node`: dispatch on the source node's runtime type; scalars are
copied by value (strings interned through the arena), arrays and tables
recurse; a node matching no recognized type keeps the initial
`CTOML_NONE` tag. -/
def convert_node (oracle : Nat → Bool) (n : TomlNode) (st : ConvState) :
    Except ConvFault CTomlNode × ConvState :=
  match n with
  | .str s =>
    let (cs, st') := store_string st s
    (.ok ⟨.CTOML_STRING, .string_value cs⟩, st')
  | .integer i => (.ok ⟨.CTOML_INTEGER, .integer_value i⟩, st)
  | .float bits => (.ok ⟨.CTOML_FLOAT, .float_value bits⟩, st)
  | .boolean b => (.ok ⟨.CTOML_BOOLEAN, .boolean_value b⟩, st)
  | .date d => (.ok ⟨.CTOML_DATE, .date_value d⟩, st)
  | .time t => (.ok ⟨.CTOML_TIME, .time_value t⟩, st)
  | .datetime d t off =>
    (.ok ⟨.CTOML_DATETIME,
          .datetime_value ⟨d, t, off.isSome, off.getD 0⟩⟩, st)
  | .arr elems => convert_array oracle elems st
  | .table entries => convert_table oracle entries st
  | .other => (.ok ⟨.CTOML_NONE, .none_data⟩, st)
termination_by (sizeOf n, 0)
decreasing_by all_goals first | omega | (simp_wf; omega)

/-- `convert_array`: read the count, allocate that many node slots, then fill
them in source order. -/
def convert_array (oracle : Nat → Bool) (elems : List (Option TomlNode))
    (st : ConvState) : Except ConvFault CTomlNode × ConvState :=
  let count := elems.length
  match alloc_nodes oracle count st with
  | (.error f, st₁) => (.error f, st₁)
  | (.ok ep, st₁) =>
    match convert_array_fill oracle ep 0 elems st₁ with
    | (.ok _, st₂) => (.ok ⟨.CTOML_ARRAY, .array_value ⟨ep, count⟩⟩, st₂)
    | (.error f, st₂) => (.error f, st₂)
termination_by (sizeOf elems, 2)
decreasing_by all_goals omega

/-- The element loop of `convert_array`: a present element is recursively
converted, a null `arr.get(i)` produces the value-initialized none node. -/
def convert_array_fill (oracle : Nat → Bool) (ep : Option Nat) (i : Nat)
    (elems : List (Option TomlNode)) (st : ConvState) :
    Except ConvFault Unit × ConvState :=
  match elems with
  | [] => (.ok (), st)
  | none :: rest =>
    convert_array_fill oracle ep (i + 1) rest (write_node st ep i noneNode)
  | some e :: rest =>
    match convert_node oracle e st with
    | (.ok cn, st₁) =>
      convert_array_fill oracle ep (i + 1) rest (write_node st₁ ep i cn)
    | (.error f, st₁) => (.error f, st₁)
termination_by (sizeOf elems, 1)
decreasing_by all_goals first | omega | (simp_wf; omega)

/-- `convert_table`: read the count, allocate key slots then value slots, and
fill both in the source table's iteration order. -/
def convert_table (oracle : Nat → Bool) (entries : List (Bytes × TomlNode))
    (st : ConvState) : Except ConvFault CTomlNode × ConvState :=
  let count := entries.length
  match alloc_keys oracle count st with
  | (.error f, st₁) => (.error f, st₁)
  | (.ok kp, st₁) =>
    match alloc_nodes oracle count st₁ with
    | (.error f, st₂) => (.error f, st₂)
    | (.ok vp, st₂) =>
      match convert_table_fill oracle kp vp 0 entries st₂ with
      | (.ok _, st₃) =>
        (.ok ⟨.CTOML_TABLE, .table_value ⟨kp, vp, count⟩⟩, st₃)
      | (.error f, st₃) => (.error f, st₃)
termination_by (sizeOf entries, 2)
decreasing_by all_goals omega

/-- The entry loop of `convert_table`: intern the key, convert the value. -/
def convert_table_fill (oracle : Nat → Bool) (kp vp : Option Nat) (i : Nat)
    (entries : List (Bytes × TomlNode)) (st : ConvState) :
    Except ConvFault Unit × ConvState :=
  match entries with
  | [] => (.ok (), st)
  | (k, v) :: rest =>
    let (cs, st₁) := store_string st k
    let st₂ := write_key st₁ kp i cs
    match convert_node oracle v st₂ with
    | (.ok cn, st₃) =>
      convert_table_fill oracle kp vp (i + 1) rest (write_node st₃ vp i cn)
    | (.error f, st₃) => (.error f, st₃)
termination_by (sizeOf entries, 1)
decreasing_by all_goals first | omega | (simp_wf; omega)

end

/-- A `toml::parse_error` thrown by the external parser: the description and
the 1-based source position `err.source().begin`. -/
structure ParseError : Type where
  description : Bytes
  line : Nat
  column : Nat
  deriving DecidableEq

/-- What `result.error_message` points at: null, a string owned by the
arena's `error_message` field, or a static string literal (`"Out of memory"`
/ `"Unknown error"`, used only when no arena exists). -/
inductive ErrMsgPtr : Type where
  | arena_msg
  | literal (s : Bytes)
  deriving DecidableEq

/-- `CTomlParseResult` from `ctoml.h`.  The opaque `CTomlTable*` handle is an
owning pointer, embedded here as the arena value itself (`none` = null). -/
structure CTomlParseResult : Type where
  success : Bool
  root : CTomlNode
  error_message : Option ErrMsgPtr
  error_line : Int
  error_column : Int
  handle : Option Arena
  deriving DecidableEq

/-- The bytes readable through `result.error_message` (resolving an
`arena_msg` pointer through the handle; `none` = null pointer). -/
def read_error_message (r : CTomlParseResult) : Option Bytes :=
  match r.error_message with
  | none => none
  | some (.literal s) => some s
  | some .arena_msg =>
    match r.handle with
    | some a => some a.error_message
    | none => none

/-- `ctoml_parse`.  The external parser is the black box
`toml::parse(std::string_view(input, length))`, embedded as its outcome: a
document tree (the top-level `toml::table`'s entries, in document order) or a
`toml::parse_error`.  `oracle` is consulted at tick `0` for
`new CTomlTable()` and from tick `1` on for each `malloc` of the conversion
pass; every fault is caught inside the function, mirroring the
`try`/`catch` cascade. -/
def ctoml_parse (oracle : Nat → Bool)
    (parsed : Except ParseError (List (Bytes × TomlNode))) : CTomlParseResult :=
  if oracle 0 then
    match parsed with
    | .error err =>
      -- `toml::parse` threw: the handle exists, the arena holds only the
      -- error description.
      { success := false
        root := ⟨.CTOML_NONE, .none_data⟩
        error_message := some .arena_msg
        error_line := (err.line : Int)
        error_column := (err.column : Int)
        handle := some { Arena.empty with error_message := err.description } }
    | .ok entries =>
      match convert_table oracle entries ⟨Arena.empty, 1⟩ with
      | (.ok root, st) =>
        { success := true
          root := root
          error_message := none
          error_line := 0
          error_column := 0
          handle := some st.arena }
      | (.error f, st) =>
        -- `catch (const std::exception& err)` with a live handle: the
        -- message is copied into the arena, the position is zeroed.
        { success := false
          root := ⟨.CTOML_NONE, .none_data⟩
          error_message := some .arena_msg
          error_line := 0
          error_column := 0
          handle := some { st.arena with error_message := fault_what f } }
  else
    -- `new CTomlTable()` itself threw `std::bad_alloc` before a handle
    -- existed: best-effort static message.
    { success := false
      root := ⟨.CTOML_NONE, .none_data⟩
      error_message := some (.literal outOfMemoryMsg)
      error_line := 0
      error_column := 0
      handle := none }

/-- The fully cleared `CTomlParseResult` that `ctoml_free_result` leaves
behind: handle deleted and nulled, message nulled, success false, position
zeroed, root `memset` to zero with the `CTOML_NONE` tag. -/
def cleared_result : CTomlParseResult :=
  { success := false
    root := ⟨.CTOML_NONE, .none_data⟩
    error_message := none
    error_line := 0
    error_column := 0
    handle := none }

/-- `ctoml_free_result`.  The argument models the pointee of the
`CTomlParseResult*` argument (`none` = null pointer); the first component of
the result is the pointee on return, the second lists the arenas passed to
`delete` during the call (empty when the handle branch is not taken). -/
def ctoml_free_result (p : Option CTomlParseResult) :
    Option CTomlParseResult × List Arena :=
  match p with
  | none => (p, [])
  | some r =>
    match r.handle with
    | some a => (some cleared_result, [a])
    | none => (some cleared_result, [])

/-- The allocation oracle of a run in which memory is never exhausted (every
`new` / `malloc` succeeds). -/
def fullMemory : Nat → Bool := fun _ => true

/-- Arena growth between two points of the conversion pass, seen from a
frame that owns no block being filled right now: every pre-existing string
and every pre-existing block is untouched (the stores are append-only and
writes land only in blocks allocated after the first point). -/
def Frame (a a' : Arena) : Prop :=
  (∀ p, p < a.strings.length → a'.strings[p]? = a.strings[p]?) ∧
  a.strings.length ≤ a'.strings.length ∧
  (∀ b, b < a.nodeBlocks.length → a'.nodeBlocks[b]? = a.nodeBlocks[b]?) ∧
  a.nodeBlocks.length ≤ a'.nodeBlocks.length ∧
  (∀ b, b < a.keyBlocks.length → a'.keyBlocks[b]? = a.keyBlocks[b]?) ∧
  a.keyBlocks.length ≤ a'.keyBlocks.length

/-- Weaker growth relation: every determinate observation (an interned
string, a cell already holding a value) gives the same answer later.  Unlike
`Frame` it tolerates writes into still-indeterminate cells of pre-existing
blocks, which is what a fill loop does to its own block. -/
def Preserves (a a' : Arena) : Prop :=
  (∀ p s, string_at a p = some s → string_at a' p = some s) ∧
  (∀ b i v, cellN a b i = some (some v) → cellN a' b i = some (some v)) ∧
  (∀ b i v, cellK a b i = some (some v) → cellK a' b i = some (some v))

mutual

/-- `represents a cn n`: the flattened node `cn`, with its pointers read in
arena `a`, is the faithful conversion of the source node `n`: matching type
tag, scalar payloads copied verbatim, strings interned with exact byte
length, arrays and tables of the right count whose slots recursively
represent the source children in source order. -/
def represents (a : Arena) (cn : CTomlNode) : TomlNode → Prop
  | .str s =>
    ∃ p, cn = ⟨.CTOML_STRING, .string_value ⟨some p, s.length⟩⟩ ∧
      string_at a p = some s
  | .integer i => cn = ⟨.CTOML_INTEGER, .integer_value i⟩
  | .float bits => cn = ⟨.CTOML_FLOAT, .float_value bits⟩
  | .boolean b => cn = ⟨.CTOML_BOOLEAN, .boolean_value b⟩
  | .date d => cn = ⟨.CTOML_DATE, .date_value d⟩
  | .time t => cn = ⟨.CTOML_TIME, .time_value t⟩
  | .datetime d t off =>
    cn = ⟨.CTOML_DATETIME, .datetime_value ⟨d, t, off.isSome, off.getD 0⟩⟩
  | .arr [] => cn = ⟨.CTOML_ARRAY, .array_value ⟨none, 0⟩⟩
  | .arr (e :: rest) =>
    ∃ b, cn = ⟨.CTOML_ARRAY, .array_value ⟨some b, (e :: rest).length⟩⟩ ∧
      represents_elems a b 0 (e :: rest)
  | .table [] => cn = ⟨.CTOML_TABLE, .table_value ⟨none, none, 0⟩⟩
  | .table (en :: rest) =>
    ∃ kb vb,
      cn = ⟨.CTOML_TABLE, .table_value ⟨some kb, some vb, (en :: rest).length⟩⟩ ∧
      represents_entries a kb vb 0 (en :: rest)
  | .other => cn = ⟨.CTOML_NONE, .none_data⟩

/-- Slots `i, i+1, …` of node block `b` represent the given source array
elements; an absent (`null`) source element is represented by the
value-initialized none node. -/
def represents_elems (a : Arena) (b i : Nat) :
    List (Option TomlNode) → Prop
  | [] => True
  | none :: rest =>
    cellN a b i = some (some noneNode) ∧ represents_elems a b (i + 1) rest
  | some e :: rest =>
    (∃ cn, cellN a b i = some (some cn) ∧ represents a cn e) ∧
      represents_elems a b (i + 1) rest

/-- Slots `i, i+1, …` of key block `kb` / node block `vb` hold the given
table entries: the interned key with its exact byte length, and a value
representing the source value. -/
def represents_entries (a : Arena) (kb vb i : Nat) :
    List (Bytes × TomlNode) → Prop
  | [] => True
  | (k, v) :: rest =>
    (∃ p, cellK a kb i = some (some ⟨some p, k.length⟩) ∧
      string_at a p = some k) ∧
    (∃ cn, cellN a vb i = some (some cn) ∧ represents a cn v) ∧
    represents_entries a kb vb (i + 1) rest

end

/-- A sequence of later `store_string` calls on the same arena. -/
def store_many (ss : List Bytes) (st : ConvState) : ConvState :=
  match ss with
  | [] => st
  | s :: rest => store_many rest (store_string st s).2

/-! ## General lemmas about the arena primitives -/

theorem frame_refl (a : Arena) : Frame a a :=
  ⟨fun _ _ => rfl, le_refl _, fun _ _ => rfl, le_refl _, fun _ _ => rfl,
   le_refl _⟩

theorem frame_trans {a b c : Arena} (h1 : Frame a b) (h2 : Frame b c) :
    Frame a c := by
  obtain ⟨s1, sl1, n1, nl1, k1, kl1⟩ := h1
  obtain ⟨s2, sl2, n2, nl2, k2, kl2⟩ := h2
  refine ⟨?_, le_trans sl1 sl2, ?_, le_trans nl1 nl2, ?_, le_trans kl1 kl2⟩
  · intro p hp; rw [s2 p (lt_of_lt_of_le hp sl1), s1 p hp]
  · intro b2 hb; rw [n2 b2 (lt_of_lt_of_le hb nl1), n1 b2 hb]
  · intro b2 hb; rw [k2 b2 (lt_of_lt_of_le hb kl1), k1 b2 hb]

theorem preserves_refl (a : Arena) : Preserves a a :=
  ⟨fun _ _ h => h, fun _ _ _ h => h, fun _ _ _ h => h⟩

theorem preserves_trans {a b c : Arena} (h1 : Preserves a b)
    (h2 : Preserves b c) : Preserves a c :=
  ⟨fun p s h => h2.1 p s (h1.1 p s h),
   fun b i v h => h2.2.1 b i v (h1.2.1 b i v h),
   fun b i v h => h2.2.2 b i v (h1.2.2 b i v h)⟩

theorem frame_preserves {a a' : Arena} (h : Frame a a') : Preserves a a' := by
  obtain ⟨s1, _, n1, _, k1, _⟩ := h
  refine ⟨?_, ?_, ?_⟩
  · intro p s hs
    have hp : p < a.strings.length := (List.getElem?_eq_some.mp hs).1
    unfold string_at at *
    rw [s1 p hp]; exact hs
  · intro b i v hc
    unfold cellN at *
    rcases hblk : a.nodeBlocks[b]? with _ | blk
    · rw [hblk] at hc; exact absurd hc (by simp)
    · have hb : b < a.nodeBlocks.length := (List.getElem?_eq_some.mp hblk).1
      rw [hblk] at hc
      rw [n1 b hb, hblk]
      exact hc
  · intro b i v hc
    unfold cellK at *
    rcases hblk : a.keyBlocks[b]? with _ | blk
    · rw [hblk] at hc; exact absurd hc (by simp)
    · have hb : b < a.keyBlocks.length := (List.getElem?_eq_some.mp hblk).1
      rw [hblk] at hc
      rw [k1 b hb, hblk]
      exact hc

theorem store_string_frame (st : ConvState) (s : Bytes) :
    Frame st.arena (store_string st s).2.arena := by
  refine ⟨?_, ?_, fun _ _ => rfl, le_refl _, fun _ _ => rfl, le_refl _⟩
  · intro p hp
    simp only [store_string]
    rw [List.getElem?_append]
    simp [hp]
  · simp [store_string]

theorem alloc_nodes_zero (oracle : Nat → Bool) (st : ConvState) :
    alloc_nodes oracle 0 st = (.ok none, st) := by
  simp [alloc_nodes]

theorem alloc_nodes_pos (oracle : Nat → Bool) (count : Nat) (st : ConvState)
    (hc : count ≠ 0) (h : oracle st.tick = true) :
    alloc_nodes oracle count st =
      (.ok (some st.arena.nodeBlocks.length),
       ⟨{ st.arena with
            nodeBlocks :=
              st.arena.nodeBlocks ++ [List.replicate count Option.none],
            allocations := st.arena.allocations ++
              [AllocPtr.nodes st.arena.nodeBlocks.length] },
         st.tick + 1⟩) := by
  simp [alloc_nodes, hc, h]

theorem alloc_keys_zero (oracle : Nat → Bool) (st : ConvState) :
    alloc_keys oracle 0 st = (.ok none, st) := by
  simp [alloc_keys]

theorem alloc_keys_pos (oracle : Nat → Bool) (count : Nat) (st : ConvState)
    (hc : count ≠ 0) (h : oracle st.tick = true) :
    alloc_keys oracle count st =
      (.ok (some st.arena.keyBlocks.length),
       ⟨{ st.arena with
            keyBlocks :=
              st.arena.keyBlocks ++ [List.replicate count Option.none],
            allocations := st.arena.allocations ++
              [AllocPtr.keys st.arena.keyBlocks.length] },
         st.tick + 1⟩) := by
  simp [alloc_keys, hc, h]

theorem alloc_nodes_pos_frame (oracle : Nat → Bool) (count : Nat)
    (st : ConvState) (hc : count ≠ 0) (h : oracle st.tick = true) :
    Frame st.arena (alloc_nodes oracle count st).2.arena := by
  rw [alloc_nodes_pos oracle count st hc h]
  refine ⟨fun _ _ => rfl, le_refl _, ?_, by simp, fun _ _ => rfl, le_refl _⟩
  intro b hb
  simp only
  rw [List.getElem?_append]
  simp [hb]

theorem alloc_keys_pos_frame (oracle : Nat → Bool) (count : Nat)
    (st : ConvState) (hc : count ≠ 0) (h : oracle st.tick = true) :
    Frame st.arena (alloc_keys oracle count st).2.arena := by
  rw [alloc_keys_pos oracle count st hc h]
  refine ⟨fun _ _ => rfl, le_refl _, fun _ _ => rfl, le_refl _, ?_, by simp⟩
  intro b hb
  simp only
  rw [List.getElem?_append]
  simp [hb]

theorem write_node_arena (st : ConvState) (b i : Nat) (v : CTomlNode)
    (blk : List (Option CTomlNode)) (hblk : st.arena.nodeBlocks[b]? = some blk) :
    (write_node st (some b) i v).arena =
      { st.arena with
        nodeBlocks := st.arena.nodeBlocks.set b (blk.set i (some v)) } := by
  simp [write_node, hblk]

theorem write_node_strings (st : ConvState) (p : Option Nat) (i : Nat)
    (v : CTomlNode) :
    (write_node st p i v).arena.strings = st.arena.strings := by
  rcases p with _ | b
  · rfl
  · unfold write_node
    rcases hblk : st.arena.nodeBlocks[b]? with _ | blk <;> simp [hblk]

theorem write_node_keyBlocks (st : ConvState) (p : Option Nat) (i : Nat)
    (v : CTomlNode) :
    (write_node st p i v).arena.keyBlocks = st.arena.keyBlocks := by
  rcases p with _ | b
  · rfl
  · unfold write_node
    rcases hblk : st.arena.nodeBlocks[b]? with _ | blk <;> simp [hblk]

theorem write_node_nodeBlocks_length (st : ConvState) (p : Option Nat)
    (i : Nat) (v : CTomlNode) :
    (write_node st p i v).arena.nodeBlocks.length =
      st.arena.nodeBlocks.length := by
  rcases p with _ | b
  · rfl
  · unfold write_node
    rcases hblk : st.arena.nodeBlocks[b]? with _ | blk <;> simp [hblk]

theorem write_node_nodeBlocks_other (st : ConvState) (b i : Nat)
    (v : CTomlNode) (b2 : Nat) (hne : b2 ≠ b) :
    (write_node st (some b) i v).arena.nodeBlocks[b2]? =
      st.arena.nodeBlocks[b2]? := by
  unfold write_node
  rcases hblk : st.arena.nodeBlocks[b]? with _ | blk
  · simp [hblk]
  · simp only [hblk]
    exact List.getElem?_set_ne (by omega)

theorem write_node_block_self (st : ConvState) (b i : Nat) (v : CTomlNode)
    (blk : List (Option CTomlNode))
    (hblk : st.arena.nodeBlocks[b]? = some blk) :
    (write_node st (some b) i v).arena.nodeBlocks[b]? =
      some (blk.set i (some v)) := by
  rw [write_node_arena st b i v blk hblk]
  simp only
  have hb : b < st.arena.nodeBlocks.length := (List.getElem?_eq_some.mp hblk).1
  rw [List.getElem?_set_eq_of_lt _ (by simpa using hb)]

theorem write_key_arena (st : ConvState) (b i : Nat) (v : CTomlString)
    (blk : List (Option CTomlString)) (hblk : st.arena.keyBlocks[b]? = some blk) :
    (write_key st (some b) i v).arena =
      { st.arena with
        keyBlocks := st.arena.keyBlocks.set b (blk.set i (some v)) } := by
  simp [write_key, hblk]

theorem write_key_strings (st : ConvState) (p : Option Nat) (i : Nat)
    (v : CTomlString) :
    (write_key st p i v).arena.strings = st.arena.strings := by
  rcases p with _ | b
  · rfl
  · unfold write_key
    rcases hblk : st.arena.keyBlocks[b]? with _ | blk <;> simp [hblk]

theorem write_key_nodeBlocks (st : ConvState) (p : Option Nat) (i : Nat)
    (v : CTomlString) :
    (write_key st p i v).arena.nodeBlocks = st.arena.nodeBlocks := by
  rcases p with _ | b
  · rfl
  · unfold write_key
    rcases hblk : st.arena.keyBlocks[b]? with _ | blk <;> simp [hblk]

theorem write_key_keyBlocks_length (st : ConvState) (p : Option Nat)
    (i : Nat) (v : CTomlString) :
    (write_key st p i v).arena.keyBlocks.length =
      st.arena.keyBlocks.length := by
  rcases p with _ | b
  · rfl
  · unfold write_key
    rcases hblk : st.arena.keyBlocks[b]? with _ | blk <;> simp [hblk]

theorem write_key_keyBlocks_other (st : ConvState) (b i : Nat)
    (v : CTomlString) (b2 : Nat) (hne : b2 ≠ b) :
    (write_key st (some b) i v).arena.keyBlocks[b2]? =
      st.arena.keyBlocks[b2]? := by
  unfold write_key
  rcases hblk : st.arena.keyBlocks[b]? with _ | blk
  · simp [hblk]
  · simp only [hblk]
    exact List.getElem?_set_ne (by omega)

theorem write_key_block_self (st : ConvState) (b i : Nat) (v : CTomlString)
    (blk : List (Option CTomlString))
    (hblk : st.arena.keyBlocks[b]? = some blk) :
    (write_key st (some b) i v).arena.keyBlocks[b]? =
      some (blk.set i (some v)) := by
  rw [write_key_arena st b i v blk hblk]
  simp only
  have hb : b < st.arena.keyBlocks.length := (List.getElem?_eq_some.mp hblk).1
  rw [List.getElem?_set_eq_of_lt _ (by simpa using hb)]

theorem write_node_preserves (st : ConvState) (b i : Nat) (v : CTomlNode)
    (hcell : cellN st.arena b i = some Option.none) :
    Preserves st.arena (write_node st (some b) i v).arena := by
  unfold cellN at hcell
  rcases hblk : st.arena.nodeBlocks[b]? with _ | blk
  · rw [hblk] at hcell; exact absurd hcell (by simp)
  · rw [hblk] at hcell
    refine ⟨?_, ?_, ?_⟩
    · intro p s hs
      unfold string_at at *
      rw [write_node_strings]; exact hs
    · intro b2 i2 w hc
      unfold cellN at *
      by_cases hb2 : b2 = b
      · subst hb2
        rw [write_node_block_self st b2 i v blk hblk]
        rw [hblk] at hc
        have hc' : blk[i2]? = some (some w) := hc
        have hcell' : blk[i]? = some Option.none := hcell
        show (blk.set i (some v))[i2]? = some (some w)
        by_cases hi2 : i2 = i
        · subst hi2; rw [hcell'] at hc'; exact absurd hc' (by simp)
        · rw [List.getElem?_set_ne (Ne.symm hi2)]; exact hc'
      · rw [write_node_nodeBlocks_other st b i v b2 hb2]
        exact hc
    · intro b2 i2 w hc
      unfold cellK at *
      rw [write_node_keyBlocks]
      exact hc

theorem write_key_preserves (st : ConvState) (b i : Nat) (v : CTomlString)
    (hcell : cellK st.arena b i = some Option.none) :
    Preserves st.arena (write_key st (some b) i v).arena := by
  unfold cellK at hcell
  rcases hblk : st.arena.keyBlocks[b]? with _ | blk
  · rw [hblk] at hcell; exact absurd hcell (by simp)
  · rw [hblk] at hcell
    refine ⟨?_, ?_, ?_⟩
    · intro p s hs
      unfold string_at at *
      rw [write_key_strings]; exact hs
    · intro b2 i2 w hc
      unfold cellN at *
      rw [write_key_nodeBlocks]
      exact hc
    · intro b2 i2 w hc
      unfold cellK at *
      by_cases hb2 : b2 = b
      · subst hb2
        rw [write_key_block_self st b2 i v blk hblk]
        rw [hblk] at hc
        have hc' : blk[i2]? = some (some w) := hc
        have hcell' : blk[i]? = some Option.none := hcell
        show (blk.set i (some v))[i2]? = some (some w)
        by_cases hi2 : i2 = i
        · subst hi2; rw [hcell'] at hc'; exact absurd hc' (by simp)
        · rw [List.getElem?_set_ne (Ne.symm hi2)]; exact hc'
      · rw [write_key_keyBlocks_other st b i v b2 hb2]
        exact hc

theorem string_at_store_string (st : ConvState) (s : Bytes) :
    (store_string st s).1 = ⟨some st.arena.strings.length, s.length⟩ ∧
    string_at (store_string st s).2.arena st.arena.strings.length = some s := by
  refine ⟨rfl, ?_⟩
  simp only [store_string, string_at]
  exact List.getElem?_concat_length _ _

theorem string_at_mono_store (st : ConvState) (s : Bytes) (p : Nat) (b : Bytes)
    (h : string_at st.arena p = some b) :
    string_at (store_string st s).2.arena p = some b := by
  simp only [store_string, string_at] at *
  have hlt : p < st.arena.strings.length :=
    (List.getElem?_eq_some.mp h).1
  rw [List.getElem?_append]
  simpa [hlt] using h

theorem store_many_preserves_string_at (ss : List Bytes) :
    ∀ st p b, string_at st.arena p = some b →
      string_at (store_many ss st).arena p = some b := by
  induction ss with
  | nil => intro st p b h; simpa [store_many] using h
  | cons s rest ih =>
    intro st p b h
    simp only [store_many]
    exact ih _ _ _ (string_at_mono_store st s p b h)

theorem cellN_eq (a : Arena) (b i : Nat) (blk : List (Option CTomlNode))
    (hblk : a.nodeBlocks[b]? = some blk) : cellN a b i = blk[i]? := by
  simp [cellN, hblk]

theorem cellK_eq (a : Arena) (b i : Nat) (blk : List (Option CTomlString))
    (hblk : a.keyBlocks[b]? = some blk) : cellK a b i = blk[i]? := by
  simp [cellK, hblk]

theorem replicate_getElem?_of_lt {α : Type} (n j : Nat) (x : α) (h : j < n) :
    (List.replicate n x)[j]? = some x := by
  simp [List.getElem?_replicate, h]

theorem getElem?_append_of_lt {α : Type} (l l2 : List α) (j : Nat)
    (h : j < l.length) : (l ++ l2)[j]? = l[j]? := by
  rw [List.getElem?_append]
  simp [h]

/-! ## Stability of `represents` under arena growth -/

mutual

theorem represents_mono {a a' : Arena} (hP : Preserves a a') (n : TomlNode)
    (cn : CTomlNode) (h : represents a cn n) : represents a' cn n :=
  match n, h with
  | .str s, h => by
    simp only [represents] at h ⊢
    obtain ⟨p, hcn, hs⟩ := h
    exact ⟨p, hcn, hP.1 p s hs⟩
  | .integer _, h => by simpa only [represents] using h
  | .float _, h => by simpa only [represents] using h
  | .boolean _, h => by simpa only [represents] using h
  | .date _, h => by simpa only [represents] using h
  | .time _, h => by simpa only [represents] using h
  | .datetime _ _ _, h => by simpa only [represents] using h
  | .arr [], h => by simpa only [represents] using h
  | .arr (e :: rest), h => by
    simp only [represents] at h ⊢
    obtain ⟨b, hcn, hrest⟩ := h
    exact ⟨b, hcn, represents_elems_mono hP b 0 (e :: rest) hrest⟩
  | .table [], h => by simpa only [represents] using h
  | .table (en :: rest), h => by
    simp only [represents] at h ⊢
    obtain ⟨kb, vb, hcn, hrest⟩ := h
    exact ⟨kb, vb, hcn,
      represents_entries_mono hP kb vb 0 (en :: rest) hrest⟩
  | .other, h => by simpa only [represents] using h
termination_by (sizeOf n, 0)
decreasing_by all_goals (simp_wf; omega)

theorem represents_elems_mono {a a' : Arena} (hP : Preserves a a')
    (b i : Nat) (elems : List (Option TomlNode))
    (h : represents_elems a b i elems) : represents_elems a' b i elems :=
  match elems, h with
  | [], _ => by simp only [represents_elems]
  | none :: rest, h => by
    simp only [represents_elems] at h ⊢
    exact ⟨hP.2.1 _ _ _ h.1, represents_elems_mono hP b (i + 1) rest h.2⟩
  | some en :: rest, h => by
    simp only [represents_elems] at h ⊢
    obtain ⟨⟨cn, hcell, hrep⟩, hrest⟩ := h
    exact ⟨⟨cn, hP.2.1 _ _ _ hcell, represents_mono hP en cn hrep⟩,
      represents_elems_mono hP b (i + 1) rest hrest⟩
termination_by (sizeOf elems, 1)
decreasing_by all_goals (simp_wf; omega)

theorem represents_entries_mono {a a' : Arena} (hP : Preserves a a')
    (kb vb i : Nat) (entries : List (Bytes × TomlNode))
    (h : represents_entries a kb vb i entries) :
    represents_entries a' kb vb i entries :=
  match entries, h with
  | [], _ => by simp only [represents_entries]
  | (k, v) :: rest, h => by
    simp only [represents_entries] at h ⊢
    obtain ⟨⟨p, hkcell, hkstr⟩, ⟨cn, hvcell, hrep⟩, hrest⟩ := h
    exact ⟨⟨p, hP.2.2 _ _ _ hkcell, hP.1 _ _ hkstr⟩,
      ⟨cn, hP.2.1 _ _ _ hvcell, represents_mono hP v cn hrep⟩,
      represents_entries_mono hP kb vb (i + 1) rest hrest⟩
termination_by (sizeOf entries, 1)
decreasing_by all_goals (simp_wf; omega)

end

/-! ## Soundness and totality of the conversion pass

With memory available (`hO`), every conversion function returns normally,
only grows the arena (`Frame`), and produces a flattened node that
faithfully represents its source (`represents`). -/

mutual

theorem convert_node_sound (oracle : Nat → Bool) (hO : ∀ k, oracle k = true)
    (n : TomlNode) (st : ConvState) :
    ∃ cn st', convert_node oracle n st = (.ok cn, st') ∧
      Frame st.arena st'.arena ∧ represents st'.arena cn n :=
  match n with
  | .str s => by
    have he : convert_node oracle (.str s) st =
        (.ok ⟨.CTOML_STRING,
              .string_value ⟨some st.arena.strings.length, s.length⟩⟩,
         (store_string st s).2) := by
      simp [convert_node, store_string]
    refine ⟨_, _, he, store_string_frame st s, ?_⟩
    simp only [represents]
    exact ⟨st.arena.strings.length, rfl, (string_at_store_string st s).2⟩
  | .integer i => by
    refine ⟨⟨.CTOML_INTEGER, .integer_value i⟩, st, ?_, frame_refl _, ?_⟩
    · simp [convert_node]
    · simp only [represents]
  | .float bits => by
    refine ⟨⟨.CTOML_FLOAT, .float_value bits⟩, st, ?_, frame_refl _, ?_⟩
    · simp [convert_node]
    · simp only [represents]
  | .boolean b => by
    refine ⟨⟨.CTOML_BOOLEAN, .boolean_value b⟩, st, ?_, frame_refl _, ?_⟩
    · simp [convert_node]
    · simp only [represents]
  | .date d => by
    refine ⟨⟨.CTOML_DATE, .date_value d⟩, st, ?_, frame_refl _, ?_⟩
    · simp [convert_node]
    · simp only [represents]
  | .time t => by
    refine ⟨⟨.CTOML_TIME, .time_value t⟩, st, ?_, frame_refl _, ?_⟩
    · simp [convert_node]
    · simp only [represents]
  | .datetime d t off => by
    refine ⟨⟨.CTOML_DATETIME,
        .datetime_value ⟨d, t, off.isSome, off.getD 0⟩⟩, st, ?_,
      frame_refl _, ?_⟩
    · simp [convert_node]
    · simp only [represents]
  | .arr elems => by
    obtain ⟨cn, st', heq, hF, hrep⟩ := convert_array_sound oracle hO elems st
    exact ⟨cn, st', by simp only [convert_node]; exact heq, hF, hrep⟩
  | .table entries => by
    obtain ⟨cn, st', heq, hF, hrep⟩ :=
      convert_table_sound oracle hO entries st
    exact ⟨cn, st', by simp only [convert_node]; exact heq, hF, hrep⟩
  | .other => by
    refine ⟨⟨.CTOML_NONE, .none_data⟩, st, ?_, frame_refl _, ?_⟩
    · simp [convert_node]
    · simp only [represents]
termination_by (sizeOf n, 3)
decreasing_by all_goals first | omega | (simp_wf; omega)

theorem convert_array_sound (oracle : Nat → Bool) (hO : ∀ k, oracle k = true)
    (elems : List (Option TomlNode)) (st : ConvState) :
    ∃ cn st', convert_array oracle elems st = (.ok cn, st') ∧
      Frame st.arena st'.arena ∧ represents st'.arena cn (.arr elems) :=
  match elems with
  | [] => by
    refine ⟨⟨.CTOML_ARRAY, .array_value ⟨none, 0⟩⟩, st, ?_, frame_refl _, ?_⟩
    · simp [convert_array, alloc_nodes, convert_array_fill]
    · simp only [represents]
  | e :: rest => by
    have hc : (e :: rest).length ≠ 0 := by simp
    have halloc := alloc_nodes_pos oracle (e :: rest).length st hc (hO st.tick)
    obtain ⟨st', hfillEq, hPres, hsF, hslen, hnB, hnlen, hkB, hklen,
      ⟨blk2, hblk2, hblen2, hprev2⟩, hrepE⟩ :=
      convert_array_fill_sound oracle hO (e :: rest)
        st.arena.nodeBlocks.length 0
        ⟨{ st.arena with
            nodeBlocks := st.arena.nodeBlocks ++
              [List.replicate (e :: rest).length Option.none],
            allocations := st.arena.allocations ++
              [AllocPtr.nodes st.arena.nodeBlocks.length] },
          st.tick + 1⟩
        (List.replicate (e :: rest).length Option.none)
        (List.getElem?_concat_length _ _)
        (by simp)
        (fun j _ hjl => replicate_getElem?_of_lt _ j _ (by simpa using hjl))
    refine ⟨⟨.CTOML_ARRAY, .array_value
        ⟨some st.arena.nodeBlocks.length, (e :: rest).length⟩⟩, st',
      ?_, ?_, ?_⟩
    · simp only [convert_array, halloc, hfillEq]
    · refine ⟨?_, ?_, ?_, ?_, ?_, ?_⟩
      · exact fun p hp => hsF p hp
      · exact hslen
      · intro b2 hb2
        have h1 := hnB b2 (by simp; omega) (by omega)
        rw [h1]
        exact getElem?_append_of_lt _ _ b2 hb2
      · exact le_trans (by simp) hnlen
      · exact fun b2 hb2 => hkB b2 hb2
      · exact hklen
    · simp only [represents]
      exact ⟨st.arena.nodeBlocks.length, rfl, hrepE⟩
termination_by (sizeOf elems, 2)
decreasing_by all_goals omega

theorem convert_array_fill_sound (oracle : Nat → Bool)
    (hO : ∀ k, oracle k = true) (elems : List (Option TomlNode)) (b i : Nat)
    (st : ConvState) (blk : List (Option CTomlNode))
    (hblk : st.arena.nodeBlocks[b]? = some blk)
    (hlen : i + elems.length ≤ blk.length)
    (hfree : ∀ j, i ≤ j → j < blk.length → blk[j]? = some Option.none) :
    ∃ st', convert_array_fill oracle (some b) i elems st = (.ok (), st') ∧
      Preserves st.arena st'.arena ∧
      (∀ p, p < st.arena.strings.length →
        st'.arena.strings[p]? = st.arena.strings[p]?) ∧
      st.arena.strings.length ≤ st'.arena.strings.length ∧
      (∀ b2, b2 < st.arena.nodeBlocks.length → b2 ≠ b →
        st'.arena.nodeBlocks[b2]? = st.arena.nodeBlocks[b2]?) ∧
      st.arena.nodeBlocks.length ≤ st'.arena.nodeBlocks.length ∧
      (∀ b2, b2 < st.arena.keyBlocks.length →
        st'.arena.keyBlocks[b2]? = st.arena.keyBlocks[b2]?) ∧
      st.arena.keyBlocks.length ≤ st'.arena.keyBlocks.length ∧
      (∃ blk', st'.arena.nodeBlocks[b]? = some blk' ∧
        blk'.length = blk.length ∧ ∀ j, j < i → blk'[j]? = blk[j]?) ∧
      represents_elems st'.arena b i elems :=
  match elems with
  | [] => by
    refine ⟨st, by simp [convert_array_fill], preserves_refl _,
      fun _ _ => rfl, le_refl _, fun _ _ _ => rfl, le_refl _,
      fun _ _ => rfl, le_refl _, ⟨blk, hblk, rfl, fun _ _ => rfl⟩, ?_⟩
    simp only [represents_elems]
  | none :: rest => by
    have hilt : i < blk.length := by
      simp only [List.length_cons] at hlen; omega
    have hcell : cellN st.arena b i = some Option.none := by
      rw [cellN_eq st.arena b i blk hblk]
      exact hfree i (le_refl i) hilt
    have hblkw : (write_node st (some b) i noneNode).arena.nodeBlocks[b]? =
        some (blk.set i (some noneNode)) :=
      write_node_block_self st b i noneNode blk hblk
    have hlenw : (i + 1) + rest.length ≤ (blk.set i (some noneNode)).length := by
      simp only [List.length_cons] at hlen
      simp only [List.length_set]
      omega
    have hfreew : ∀ j, i + 1 ≤ j → j < (blk.set i (some noneNode)).length →
        (blk.set i (some noneNode))[j]? = some Option.none := by
      intro j hj hjl
      rw [List.getElem?_set_ne (by omega : i ≠ j)]
      exact hfree j (by omega) (by simpa using hjl)
    obtain ⟨st', hfillEq, hPres, hsF, hslen, hnB, hnlen, hkB, hklen,
      ⟨blk2, hblk2, hblen2, hprev2⟩, hrepE⟩ :=
      convert_array_fill_sound oracle hO rest b (i + 1)
        (write_node st (some b) i noneNode) _ hblkw hlenw hfreew
    refine ⟨st', ?_,
      preserves_trans (write_node_preserves st b i noneNode hcell) hPres,
      ?_, ?_, ?_, ?_, ?_, ?_, ?_, ?_⟩
    · simp only [convert_array_fill]
      exact hfillEq
    · intro p hp
      have h1 := hsF p (by rw [write_node_strings]; exact hp)
      rw [write_node_strings] at h1
      exact h1
    · have h2 := hslen
      rw [write_node_strings] at h2
      exact h2
    · intro b2 hb2 hneb
      have h1 := hnB b2 (by rw [write_node_nodeBlocks_length]; exact hb2) hneb
      rw [write_node_nodeBlocks_other st b i noneNode b2 hneb] at h1
      exact h1
    · have h2 := hnlen
      rw [write_node_nodeBlocks_length] at h2
      exact h2
    · intro b2 hb2
      have h1 := hkB b2 (by rw [write_node_keyBlocks]; exact hb2)
      rw [write_node_keyBlocks] at h1
      exact h1
    · have h2 := hklen
      rw [write_node_keyBlocks] at h2
      exact h2
    · refine ⟨blk2, hblk2, by rw [hblen2, List.length_set], ?_⟩
      intro j hj
      rw [hprev2 j (by omega)]
      exact List.getElem?_set_ne (by omega)
    · simp only [represents_elems]
      refine ⟨?_, hrepE⟩
      rw [cellN_eq st'.arena b i blk2 hblk2, hprev2 i (by omega)]
      exact List.getElem?_set_eq_of_lt _ hilt
  | some e :: rest => by
    have hilt : i < blk.length := by
      simp only [List.length_cons] at hlen; omega
    obtain ⟨cn, st1, hconv, hF1, hrep1⟩ := convert_node_sound oracle hO e st
    have hb : b < st.arena.nodeBlocks.length :=
      (List.getElem?_eq_some.mp hblk).1
    have hblk1 : st1.arena.nodeBlocks[b]? = some blk := by
      rw [hF1.2.2.1 b hb]; exact hblk
    have hcell1 : cellN st1.arena b i = some Option.none := by
      rw [cellN_eq st1.arena b i blk hblk1]
      exact hfree i (le_refl i) hilt
    have hblkw : (write_node st1 (some b) i cn).arena.nodeBlocks[b]? =
        some (blk.set i (some cn)) :=
      write_node_block_self st1 b i cn blk hblk1
    have hlenw : (i + 1) + rest.length ≤ (blk.set i (some cn)).length := by
      simp only [List.length_cons] at hlen
      simp only [List.length_set]
      omega
    have hfreew : ∀ j, i + 1 ≤ j → j < (blk.set i (some cn)).length →
        (blk.set i (some cn))[j]? = some Option.none := by
      intro j hj hjl
      rw [List.getElem?_set_ne (by omega : i ≠ j)]
      exact hfree j (by omega) (by simpa using hjl)
    obtain ⟨st', hfillEq, hPres, hsF, hslen, hnB, hnlen, hkB, hklen,
      ⟨blk2, hblk2, hblen2, hprev2⟩, hrepE⟩ :=
      convert_array_fill_sound oracle hO rest b (i + 1)
        (write_node st1 (some b) i cn) _ hblkw hlenw hfreew
    have hPresW : Preserves st1.arena (write_node st1 (some b) i cn).arena :=
      write_node_preserves st1 b i cn hcell1
    refine ⟨st', ?_,
      preserves_trans (frame_preserves hF1) (preserves_trans hPresW hPres),
      ?_, ?_, ?_, ?_, ?_, ?_, ?_, ?_⟩
    · simp only [convert_array_fill, hconv]
      exact hfillEq
    · intro p hp
      have hp1 : p < st1.arena.strings.length := lt_of_lt_of_le hp hF1.2.1
      have h1 := hsF p (by rw [write_node_strings]; exact hp1)
      rw [write_node_strings] at h1
      rw [h1]
      exact hF1.1 p hp
    · have h2 := hslen
      rw [write_node_strings] at h2
      exact le_trans hF1.2.1 h2
    · intro b2 hb2 hneb
      have hb21 : b2 < st1.arena.nodeBlocks.length :=
        lt_of_lt_of_le hb2 hF1.2.2.2.1
      have h1 := hnB b2 (by rw [write_node_nodeBlocks_length]; exact hb21) hneb
      rw [write_node_nodeBlocks_other st1 b i cn b2 hneb] at h1
      rw [h1]
      exact hF1.2.2.1 b2 hb2
    · have h2 := hnlen
      rw [write_node_nodeBlocks_length] at h2
      exact le_trans hF1.2.2.2.1 h2
    · intro b2 hb2
      have hb21 : b2 < st1.arena.keyBlocks.length :=
        lt_of_lt_of_le hb2 hF1.2.2.2.2.2
      have h1 := hkB b2 (by rw [write_node_keyBlocks]; exact hb21)
      rw [write_node_keyBlocks] at h1
      rw [h1]
      exact hF1.2.2.2.2.1 b2 hb2
    · have h2 := hklen
      rw [write_node_keyBlocks] at h2
      exact le_trans hF1.2.2.2.2.2 h2
    · refine ⟨blk2, hblk2, by rw [hblen2, List.length_set], ?_⟩
      intro j hj
      rw [hprev2 j (by omega)]
      exact List.getElem?_set_ne (by omega)
    · simp only [represents_elems]
      refine ⟨⟨cn, ?_, ?_⟩, hrepE⟩
      · rw [cellN_eq st'.arena b i blk2 hblk2, hprev2 i (by omega)]
        exact List.getElem?_set_eq_of_lt _ hilt
      · exact represents_mono hPres e cn (represents_mono hPresW e cn hrep1)
termination_by (sizeOf elems, 1)
decreasing_by all_goals first | omega | (simp_wf; omega)

theorem convert_table_sound (oracle : Nat → Bool) (hO : ∀ k, oracle k = true)
    (entries : List (Bytes × TomlNode)) (st : ConvState) :
    ∃ cn st', convert_table oracle entries st = (.ok cn, st') ∧
      Frame st.arena st'.arena ∧ represents st'.arena cn (.table entries) :=
  match entries with
  | [] => by
    refine ⟨⟨.CTOML_TABLE, .table_value ⟨none, none, 0⟩⟩, st, ?_,
      frame_refl _, ?_⟩
    · simp [convert_table, alloc_nodes, alloc_keys, convert_table_fill]
    · simp only [represents]
  | (k, v) :: rest => by
    have hc : ((k, v) :: rest).length ≠ 0 := by simp
    have halloc1 :=
      alloc_keys_pos oracle ((k, v) :: rest).length st hc (hO st.tick)
    obtain ⟨stk, halloc1eq, hkKB, hkstr, hknb, hkold, hkblen, hktick⟩ :
        ∃ stk, alloc_keys oracle ((k, v) :: rest).length st =
            (.ok (some st.arena.keyBlocks.length), stk) ∧
          stk.arena.keyBlocks[st.arena.keyBlocks.length]? =
            some (List.replicate ((k, v) :: rest).length Option.none) ∧
          stk.arena.strings = st.arena.strings ∧
          stk.arena.nodeBlocks = st.arena.nodeBlocks ∧
          (∀ b2, b2 < st.arena.keyBlocks.length →
            stk.arena.keyBlocks[b2]? = st.arena.keyBlocks[b2]?) ∧
          stk.arena.keyBlocks.length = st.arena.keyBlocks.length + 1 ∧
          stk.tick = st.tick + 1 := by
      rw [halloc1]
      exact ⟨_, rfl, List.getElem?_concat_length _ _, rfl, rfl,
        fun b2 hb2 => getElem?_append_of_lt _ _ b2 hb2, by simp, rfl⟩
    obtain ⟨stv, halloc2eq, hvVB, hvstr, hvkb, hvold, hvblen, hvtick⟩ :
        ∃ stv, alloc_nodes oracle ((k, v) :: rest).length stk =
            (.ok (some stk.arena.nodeBlocks.length), stv) ∧
          stv.arena.nodeBlocks[stk.arena.nodeBlocks.length]? =
            some (List.replicate ((k, v) :: rest).length Option.none) ∧
          stv.arena.strings = stk.arena.strings ∧
          stv.arena.keyBlocks = stk.arena.keyBlocks ∧
          (∀ b2, b2 < stk.arena.nodeBlocks.length →
            stv.arena.nodeBlocks[b2]? = stk.arena.nodeBlocks[b2]?) ∧
          stv.arena.nodeBlocks.length = stk.arena.nodeBlocks.length + 1 ∧
          stv.tick = stk.tick + 1 := by
      rw [alloc_nodes_pos oracle ((k, v) :: rest).length stk hc
        (by rw [hktick]; exact hO _)]
      exact ⟨_, rfl, List.getElem?_concat_length _ _, rfl, rfl,
        fun b2 hb2 => getElem?_append_of_lt _ _ b2 hb2, by simp, rfl⟩
    obtain ⟨st', hfillEq, hPres, hsF, hslen, hnB, hnlen, hkB, hklen,
      ⟨kblk2, hkblk2, hkblen2, _⟩, ⟨vblk2, hvblk2, hvblen2, _⟩, hrepE⟩ :=
      convert_table_fill_sound oracle hO ((k, v) :: rest)
        st.arena.keyBlocks.length stk.arena.nodeBlocks.length 0 stv
        (List.replicate ((k, v) :: rest).length Option.none)
        (List.replicate ((k, v) :: rest).length Option.none)
        (by rw [hvkb]; exact hkKB)
        hvVB
        (by simp)
        (by simp)
        (fun j _ hjl => replicate_getElem?_of_lt _ j _ (by simpa using hjl))
        (fun j _ hjl => replicate_getElem?_of_lt _ j _ (by simpa using hjl))
    refine ⟨⟨.CTOML_TABLE, .table_value
        ⟨some st.arena.keyBlocks.length, some stk.arena.nodeBlocks.length,
         ((k, v) :: rest).length⟩⟩, st', ?_, ?_, ?_⟩
    · simp only [convert_table, halloc1eq, halloc2eq, hfillEq]
    · have hVB : stk.arena.nodeBlocks.length = st.arena.nodeBlocks.length := by
        rw [hknb]
      refine ⟨?_, ?_, ?_, ?_, ?_, ?_⟩
      · intro p hp
        have hp2 : p < stv.arena.strings.length := by
          rw [hvstr, hkstr]; exact hp
        have h1 := hsF p hp2
        rw [hvstr, hkstr] at h1
        exact h1
      · have h2 := hslen
        rw [hvstr, hkstr] at h2
        exact h2
      · intro b2 hb2
        have hb2v : b2 < stv.arena.nodeBlocks.length := by
          rw [hvblen, hVB]; omega
        have h1 := hnB b2 hb2v (by omega)
        rw [h1, hvold b2 (by rw [hVB]; omega), hknb]
      · have h2 := hnlen
        rw [hvblen, hVB] at h2
        omega
      · intro b2 hb2
        have hb2v : b2 < stv.arena.keyBlocks.length := by
          rw [hvkb, hkblen]; omega
        have h1 := hkB b2 hb2v (by omega)
        rw [h1, hvkb, hkold b2 hb2]
      · have h2 := hklen
        rw [hvkb, hkblen] at h2
        omega
    · simp only [represents]
      exact ⟨st.arena.keyBlocks.length, stk.arena.nodeBlocks.length, rfl,
        hrepE⟩
termination_by (sizeOf entries, 2)
decreasing_by all_goals omega

theorem convert_table_fill_sound (oracle : Nat → Bool)
    (hO : ∀ k, oracle k = true) (entries : List (Bytes × TomlNode))
    (kb vb i : Nat) (st : ConvState)
    (kblk : List (Option CTomlString)) (vblk : List (Option CTomlNode))
    (hkblk : st.arena.keyBlocks[kb]? = some kblk)
    (hvblk : st.arena.nodeBlocks[vb]? = some vblk)
    (hklen : i + entries.length ≤ kblk.length)
    (hvlen : i + entries.length ≤ vblk.length)
    (hkfree : ∀ j, i ≤ j → j < kblk.length → kblk[j]? = some Option.none)
    (hvfree : ∀ j, i ≤ j → j < vblk.length → vblk[j]? = some Option.none) :
    ∃ st', convert_table_fill oracle (some kb) (some vb) i entries st =
        (.ok (), st') ∧
      Preserves st.arena st'.arena ∧
      (∀ p, p < st.arena.strings.length →
        st'.arena.strings[p]? = st.arena.strings[p]?) ∧
      st.arena.strings.length ≤ st'.arena.strings.length ∧
      (∀ b2, b2 < st.arena.nodeBlocks.length → b2 ≠ vb →
        st'.arena.nodeBlocks[b2]? = st.arena.nodeBlocks[b2]?) ∧
      st.arena.nodeBlocks.length ≤ st'.arena.nodeBlocks.length ∧
      (∀ b2, b2 < st.arena.keyBlocks.length → b2 ≠ kb →
        st'.arena.keyBlocks[b2]? = st.arena.keyBlocks[b2]?) ∧
      st.arena.keyBlocks.length ≤ st'.arena.keyBlocks.length ∧
      (∃ kblk', st'.arena.keyBlocks[kb]? = some kblk' ∧
        kblk'.length = kblk.length ∧ ∀ j, j < i → kblk'[j]? = kblk[j]?) ∧
      (∃ vblk', st'.arena.nodeBlocks[vb]? = some vblk' ∧
        vblk'.length = vblk.length ∧ ∀ j, j < i → vblk'[j]? = vblk[j]?) ∧
      represents_entries st'.arena kb vb i entries :=
  match entries with
  | [] => by
    refine ⟨st, by simp [convert_table_fill], preserves_refl _,
      fun _ _ => rfl, le_refl _, fun _ _ _ => rfl, le_refl _,
      fun _ _ _ => rfl, le_refl _, ⟨kblk, hkblk, rfl, fun _ _ => rfl⟩,
      ⟨vblk, hvblk, rfl, fun _ _ => rfl⟩, ?_⟩
    simp only [represents_entries]
  | (k, v) :: rest => by
    have hkilt : i < kblk.length := by
      simp only [List.length_cons] at hklen; omega
    have hvilt : i < vblk.length := by
      simp only [List.length_cons] at hvlen; omega
    -- step 1: intern the key
    have hkb : kb < st.arena.keyBlocks.length :=
      (List.getElem?_eq_some.mp hkblk).1
    have hvb : vb < st.arena.nodeBlocks.length :=
      (List.getElem?_eq_some.mp hvblk).1
    have hkblk1 : (store_string st k).2.arena.keyBlocks[kb]? = some kblk :=
      hkblk
    have hvblk1 : (store_string st k).2.arena.nodeBlocks[vb]? = some vblk :=
      hvblk
    -- step 2: write the key slot
    have hkcell1 : cellK (store_string st k).2.arena kb i =
        some Option.none := by
      rw [cellK_eq _ kb i kblk hkblk1]
      exact hkfree i (le_refl i) hkilt
    have hkblkw :
        (write_key (store_string st k).2 (some kb) i
            ⟨some st.arena.strings.length, k.length⟩).arena.keyBlocks[kb]? =
          some (kblk.set i (some ⟨some st.arena.strings.length, k.length⟩)) :=
      write_key_block_self (store_string st k).2 kb i _ kblk hkblk1
    have hvblkw :
        (write_key (store_string st k).2 (some kb) i
            ⟨some st.arena.strings.length, k.length⟩).arena.nodeBlocks[vb]? =
          some vblk := by
      rw [write_key_nodeBlocks]
      exact hvblk1
    -- step 3: convert the value
    obtain ⟨cn, st3, hconv, hF3, hrep3⟩ :=
      convert_node_sound oracle hO v
        (write_key (store_string st k).2 (some kb) i
          ⟨some st.arena.strings.length, k.length⟩)
    have hkb2 : kb <
        (write_key (store_string st k).2 (some kb) i
          ⟨some st.arena.strings.length, k.length⟩).arena.keyBlocks.length := by
      rw [write_key_keyBlocks_length]
      exact hkb
    have hvb2 : vb <
        (write_key (store_string st k).2 (some kb) i
          ⟨some st.arena.strings.length, k.length⟩).arena.nodeBlocks.length := by
      rw [write_key_nodeBlocks]
      exact hvb
    have hkblk3 : st3.arena.keyBlocks[kb]? =
        some (kblk.set i (some ⟨some st.arena.strings.length, k.length⟩)) := by
      rw [hF3.2.2.2.2.1 kb hkb2]
      exact hkblkw
    have hvblk3 : st3.arena.nodeBlocks[vb]? = some vblk := by
      rw [hF3.2.2.1 vb hvb2]
      exact hvblkw
    -- step 4: write the value slot
    have hvcell3 : cellN st3.arena vb i = some Option.none := by
      rw [cellN_eq _ vb i vblk hvblk3]
      exact hvfree i (le_refl i) hvilt
    have hvblkw4 : (write_node st3 (some vb) i cn).arena.nodeBlocks[vb]? =
        some (vblk.set i (some cn)) :=
      write_node_block_self st3 vb i cn vblk hvblk3
    have hkblkw4 : (write_node st3 (some vb) i cn).arena.keyBlocks[kb]? =
        some (kblk.set i (some ⟨some st.arena.strings.length, k.length⟩)) := by
      rw [write_node_keyBlocks]
      exact hkblk3
    -- step 5: recurse on the tail
    have hklenw : (i + 1) + rest.length ≤
        (kblk.set i (some ⟨some st.arena.strings.length, k.length⟩)).length := by
      simp only [List.length_cons] at hklen
      simp only [List.length_set]
      omega
    have hvlenw : (i + 1) + rest.length ≤ (vblk.set i (some cn)).length := by
      simp only [List.length_cons] at hvlen
      simp only [List.length_set]
      omega
    have hkfreew : ∀ j, i + 1 ≤ j →
        j < (kblk.set i (some ⟨some st.arena.strings.length, k.length⟩)).length →
        (kblk.set i (some ⟨some st.arena.strings.length, k.length⟩))[j]? =
          some Option.none := by
      intro j hj hjl
      rw [List.getElem?_set_ne (by omega : i ≠ j)]
      exact hkfree j (by omega) (by simpa using hjl)
    have hvfreew : ∀ j, i + 1 ≤ j → j < (vblk.set i (some cn)).length →
        (vblk.set i (some cn))[j]? = some Option.none := by
      intro j hj hjl
      rw [List.getElem?_set_ne (by omega : i ≠ j)]
      exact hvfree j (by omega) (by simpa using hjl)
    obtain ⟨st', hfillEq, hPres, hsF, hslen, hnB, hnlen, hkB, hklen',
      ⟨kblk2, hkblk2, hkblen2, hkprev2⟩, ⟨vblk2, hvblk2, hvblen2, hvprev2⟩,
      hrepE⟩ :=
      convert_table_fill_sound oracle hO rest kb vb (i + 1)
        (write_node st3 (some vb) i cn) _ _ hkblkw4 hvblkw4
        hklenw hvlenw hkfreew hvfreew
    have hPresS : Preserves st.arena (store_string st k).2.arena :=
      frame_preserves (store_string_frame st k)
    have hPresK : Preserves (store_string st k).2.arena
        (write_key (store_string st k).2 (some kb) i
          ⟨some st.arena.strings.length, k.length⟩).arena :=
      write_key_preserves (store_string st k).2 kb i _ hkcell1
    have hPresW : Preserves st3.arena (write_node st3 (some vb) i cn).arena :=
      write_node_preserves st3 vb i cn hvcell3
    refine ⟨st', ?_,
      preserves_trans hPresS (preserves_trans hPresK
        (preserves_trans (frame_preserves hF3)
          (preserves_trans hPresW hPres))),
      ?_, ?_, ?_, ?_, ?_, ?_, ?_, ?_, ?_⟩
    · have hconv2 := hconv
      simp only [store_string] at hconv2
      simp only [convert_table_fill, store_string]
      rw [hconv2]
      exact hfillEq
    · -- strings pointwise
      intro p hp
      have hp1 : p < (store_string st k).2.arena.strings.length := by
        simp only [store_string, List.length_append]
        omega
      have hp2 : p <
          (write_key (store_string st k).2 (some kb) i
            ⟨some st.arena.strings.length, k.length⟩).arena.strings.length := by
        rw [write_key_strings]; exact hp1
      have hp3 : p < st3.arena.strings.length := lt_of_lt_of_le hp2 hF3.2.1
      have h1 := hsF p (by rw [write_node_strings]; exact hp3)
      rw [write_node_strings] at h1
      rw [h1, hF3.1 p hp2, write_key_strings]
      simp only [store_string]
      exact getElem?_append_of_lt _ _ p hp
    · -- strings length
      have h2 := hslen
      rw [write_node_strings] at h2
      have h3 : (store_string st k).2.arena.strings.length =
          st.arena.strings.length + 1 := by
        simp [store_string]
      have h4 := hF3.2.1
      rw [write_key_strings] at h4
      omega
    · -- nodeBlocks pointwise, away from vb
      intro b2 hb2 hneb
      have hb22 : b2 <
          (write_key (store_string st k).2 (some kb) i
            ⟨some st.arena.strings.length, k.length⟩).arena.nodeBlocks.length := by
        rw [write_key_nodeBlocks]
        exact hb2
      have hb23 : b2 < st3.arena.nodeBlocks.length :=
        lt_of_lt_of_le hb22 hF3.2.2.2.1
      have h1 := hnB b2 (by rw [write_node_nodeBlocks_length]; exact hb23) hneb
      rw [write_node_nodeBlocks_other st3 vb i cn b2 hneb] at h1
      rw [h1, hF3.2.2.1 b2 hb22, write_key_nodeBlocks]
      rfl
    · -- nodeBlocks length
      have h2 := hnlen
      rw [write_node_nodeBlocks_length] at h2
      have h4 := hF3.2.2.2.1
      rw [write_key_nodeBlocks] at h4
      exact le_trans h4 h2
    · -- keyBlocks pointwise, away from kb
      intro b2 hb2 hneb
      have hb22 : b2 <
          (write_key (store_string st k).2 (some kb) i
            ⟨some st.arena.strings.length, k.length⟩).arena.keyBlocks.length := by
        rw [write_key_keyBlocks_length]
        exact hb2
      have hb23 : b2 < st3.arena.keyBlocks.length :=
        lt_of_lt_of_le hb22 hF3.2.2.2.2.2
      have h1 := hkB b2 (by rw [write_node_keyBlocks]; exact hb23) hneb
      rw [write_node_keyBlocks] at h1
      rw [h1, hF3.2.2.2.2.1 b2 hb22,
        write_key_keyBlocks_other (store_string st k).2 kb i _ b2 hneb]
      rfl
    · -- keyBlocks length
      have h2 := hklen'
      rw [write_node_keyBlocks] at h2
      have h4 := hF3.2.2.2.2.2
      rw [write_key_keyBlocks_length] at h4
      exact le_trans h4 h2
    · -- key block kb facts
      refine ⟨kblk2, hkblk2, by rw [hkblen2, List.length_set], ?_⟩
      intro j hj
      rw [hkprev2 j (by omega)]
      exact List.getElem?_set_ne (by omega)
    · -- node block vb facts
      refine ⟨vblk2, hvblk2, by rw [hvblen2, List.length_set], ?_⟩
      intro j hj
      rw [hvprev2 j (by omega)]
      exact List.getElem?_set_ne (by omega)
    · -- represents_entries
      simp only [represents_entries]
      refine ⟨⟨st.arena.strings.length, ?_, ?_⟩, ⟨cn, ?_, ?_⟩, hrepE⟩
      · rw [cellK_eq st'.arena kb i kblk2 hkblk2, hkprev2 i (by omega)]
        exact List.getElem?_set_eq_of_lt _ hkilt
      · have hs1 : string_at (store_string st k).2.arena
            st.arena.strings.length = some k :=
          (string_at_store_string st k).2
        have hs2 := hPresK.1 _ _ hs1
        have hs3 := (frame_preserves hF3).1 _ _ hs2
        have hs4 := hPresW.1 _ _ hs3
        exact hPres.1 _ _ hs4
      · rw [cellN_eq st'.arena vb i vblk2 hvblk2, hvprev2 i (by omega)]
        exact List.getElem?_set_eq_of_lt _ hvilt
      · exact represents_mono hPres v cn (represents_mono hPresW v cn hrep3)
termination_by (sizeOf entries, 1)
decreasing_by all_goals first | omega | (simp_wf; omega)

end

/-! ## Index access into represented tables and arrays -/

theorem represents_entries_index (a : Arena) (kb vb : Nat)
    (entries : List (Bytes × TomlNode)) :
    ∀ (j i : Nat), represents_entries a kb vb j entries →
      ∀ h : i < entries.length,
        (∃ p, cellK a kb (j + i) =
            some (some ⟨some p, (entries.get ⟨i, h⟩).1.length⟩) ∧
          string_at a p = some (entries.get ⟨i, h⟩).1) ∧
        (∃ cn, cellN a vb (j + i) = some (some cn) ∧
          represents a cn (entries.get ⟨i, h⟩).2) := by
  induction entries with
  | nil => intro j i _ h; exact absurd h (by simp)
  | cons en rest ih =>
    intro j i hrep h
    obtain ⟨k, v⟩ := en
    simp only [represents_entries] at hrep
    obtain ⟨hk, hv, hrest⟩ := hrep
    cases i with
    | zero => simpa using ⟨hk, hv⟩
    | succ i2 =>
      have h2 : i2 < rest.length := by simpa using Nat.lt_of_succ_lt_succ h
      have hres := ih (j + 1) i2 hrest h2
      have hidx : j + (i2 + 1) = (j + 1) + i2 := by omega
      rw [hidx]
      simpa using hres

theorem represents_elems_index_none (a : Arena) (b : Nat)
    (elems : List (Option TomlNode)) :
    ∀ (j i : Nat), represents_elems a b j elems →
      elems[i]? = some Option.none →
      cellN a b (j + i) = some (some noneNode) := by
  induction elems with
  | nil => intro j i _ hi; simp at hi
  | cons e rest ih =>
    intro j i hrep hi
    cases i with
    | zero =>
      have he : e = Option.none := by simpa using hi
      subst he
      simp only [represents_elems] at hrep
      simpa using hrep.1
    | succ i2 =>
      have hi2 : rest[i2]? = some Option.none := by simpa using hi
      have hrest : represents_elems a b (j + 1) rest := by
        cases e <;> (simp only [represents_elems] at hrep; exact hrep.2)
      have hres := ih (j + 1) i2 hrest hi2
      have hidx : j + (i2 + 1) = (j + 1) + i2 := by omega
      rw [hidx]
      exact hres

/-! ## Claim theorems: the success path (C1) and totality (C4) -/

/-- C1: for every document the external parser accepts (given as its tree of
top-level entries) and memory available, `ctoml_parse` returns success true
and a table-typed root whose count equals the number of top-level entries;
the root faithfully represents the whole document, and for every index `i`
the key slot `i` holds the interned bytes of the `i`-th source key (in
source order) while the value slot `i` holds the conversion of the `i`-th
source value. -/
theorem parse_success_structure (oracle : Nat → Bool)
    (hO : ∀ k, oracle k = true) (entries : List (Bytes × TomlNode)) :
    ∃ a : Arena, (ctoml_parse oracle (.ok entries)).handle = some a ∧
      (ctoml_parse oracle (.ok entries)).success = true ∧
      (ctoml_parse oracle (.ok entries)).root.type = .CTOML_TABLE ∧
      (∃ kp vp, (ctoml_parse oracle (.ok entries)).root.data =
        .table_value ⟨kp, vp, entries.length⟩) ∧
      represents a (ctoml_parse oracle (.ok entries)).root (.table entries) ∧
      (∀ i, ∀ h : i < entries.length, ∃ kb vb,
        (ctoml_parse oracle (.ok entries)).root.data =
          .table_value ⟨some kb, some vb, entries.length⟩ ∧
        (∃ p, cellK a kb i =
            some (some ⟨some p, (entries.get ⟨i, h⟩).1.length⟩) ∧
          string_at a p = some (entries.get ⟨i, h⟩).1) ∧
        (∃ cn, cellN a vb i = some (some cn) ∧
          represents a cn (entries.get ⟨i, h⟩).2)) := by
  obtain ⟨cn, st', heq, hF, hrep⟩ :=
    convert_table_sound oracle hO entries ⟨Arena.empty, 1⟩
  have hres : ctoml_parse oracle (.ok entries) =
      { success := true
        root := cn
        error_message := none
        error_line := 0
        error_column := 0
        handle := some st'.arena } := by
    simp [ctoml_parse, hO 0, heq]
  rw [hres]
  refine ⟨st'.arena, rfl, rfl, ?_, ?_, hrep, ?_⟩
  · cases entries with
    | nil => simp only [represents] at hrep; rw [hrep]
    | cons en rest =>
      simp only [represents] at hrep
      obtain ⟨kb, vb, hcn, _⟩ := hrep
      rw [hcn]
  · cases entries with
    | nil =>
      simp only [represents] at hrep
      rw [hrep]
      exact ⟨none, none, rfl⟩
    | cons en rest =>
      simp only [represents] at hrep
      obtain ⟨kb, vb, hcn, _⟩ := hrep
      rw [hcn]
      exact ⟨some kb, some vb, rfl⟩
  · intro i h
    cases entries with
    | nil => exact absurd h (by simp)
    | cons en rest =>
      have hrep2 := hrep
      simp only [represents] at hrep2
      obtain ⟨kb, vb, hcn, hentries⟩ := hrep2
      have hidx :=
        represents_entries_index st'.arena kb vb (en :: rest) 0 i hentries h
      rw [Nat.zero_add] at hidx
      exact ⟨kb, vb, by rw [hcn], hidx.1, hidx.2⟩

/-- C1 (witness): the success-path contract at the concrete one-entry
document `a = true`. -/
theorem parse_success_structure_witness :
    (∀ k, fullMemory k = true) ∧
    (∃ a : Arena,
      (ctoml_parse fullMemory
        (.ok [([0x61], TomlNode.boolean true)])).handle = some a ∧
      (ctoml_parse fullMemory
        (.ok [([0x61], TomlNode.boolean true)])).success = true ∧
      (ctoml_parse fullMemory
        (.ok [([0x61], TomlNode.boolean true)])).root.type = .CTOML_TABLE ∧
      (∃ kp vp, (ctoml_parse fullMemory
          (.ok [([0x61], TomlNode.boolean true)])).root.data =
        .table_value ⟨kp, vp, [([0x61], TomlNode.boolean true)].length⟩) ∧
      represents a (ctoml_parse fullMemory
          (.ok [([0x61], TomlNode.boolean true)])).root
        (.table [([0x61], TomlNode.boolean true)]) ∧
      (∀ i, ∀ h : i < [([0x61], TomlNode.boolean true)].length, ∃ kb vb,
        (ctoml_parse fullMemory
            (.ok [([0x61], TomlNode.boolean true)])).root.data =
          .table_value ⟨some kb, some vb,
            [([0x61], TomlNode.boolean true)].length⟩ ∧
        (∃ p, cellK a kb i = some (some ⟨some p,
            ([([0x61], TomlNode.boolean true)].get ⟨i, h⟩).1.length⟩) ∧
          string_at a p =
            some ([([0x61], TomlNode.boolean true)].get ⟨i, h⟩).1) ∧
        (∃ cn, cellN a vb i = some (some cn) ∧
          represents a cn
            ([([0x61], TomlNode.boolean true)].get ⟨i, h⟩).2))) :=
  ⟨fun _ => rfl,
   parse_success_structure fullMemory (fun _ => rfl)
     [([0x61], TomlNode.boolean true)]⟩

/-- C4: the tree converter is total — with memory available, `convert_node`
returns a flattened node for every source node without any conversion-error
path: an unrecognized node yields the `CTOML_NONE`-tagged node, and an array
index whose element is absent in the source yields the value-initialized
none node in the corresponding slot rather than an error. -/
theorem converter_total (oracle : Nat → Bool) (hO : ∀ k, oracle k = true) :
    (∀ n st, ∃ cn st', convert_node oracle n st = (.ok cn, st')) ∧
    (∀ st, convert_node oracle .other st =
      (.ok ⟨.CTOML_NONE, .none_data⟩, st)) ∧
    (∀ elems st i, elems[i]? = some Option.none →
      ∃ b st', convert_array oracle elems st =
          (.ok ⟨.CTOML_ARRAY, .array_value ⟨some b, elems.length⟩⟩, st') ∧
        cellN st'.arena b i = some (some noneNode)) := by
  refine ⟨?_, ?_, ?_⟩
  · intro n st
    obtain ⟨cn, st', heq, _, _⟩ := convert_node_sound oracle hO n st
    exact ⟨cn, st', heq⟩
  · intro st
    simp [convert_node]
  · intro elems st i hi
    cases elems with
    | nil => simp at hi
    | cons e rest =>
      obtain ⟨cn, st', heq, _, hrep⟩ :=
        convert_array_sound oracle hO (e :: rest) st
      simp only [represents] at hrep
      obtain ⟨b, hcn, helems⟩ := hrep
      refine ⟨b, st', by rw [← hcn]; exact heq, ?_⟩
      have hcell :=
        represents_elems_index_none st'.arena b (e :: rest) 0 i helems hi
      rw [Nat.zero_add] at hcell
      exact hcell

/-- C4 (witness): totality at the concrete sparse array `[null]` — the
produced element is the none node. -/
theorem converter_total_witness :
    (∀ k, fullMemory k = true) ∧
    convert_node fullMemory .other ⟨Arena.empty, 0⟩ =
      (.ok ⟨.CTOML_NONE, .none_data⟩, ⟨Arena.empty, 0⟩) ∧
    (∃ b st', convert_array fullMemory [Option.none] ⟨Arena.empty, 0⟩ =
        (.ok ⟨.CTOML_ARRAY,
          .array_value ⟨some b, [(Option.none : Option TomlNode)].length⟩⟩,
         st') ∧
      cellN st'.arena b 0 = some (some noneNode)) :=
  ⟨fun _ => rfl,
   (converter_total fullMemory (fun _ => rfl)).2.1 ⟨Arena.empty, 0⟩,
   (converter_total fullMemory (fun _ => rfl)).2.2
     [Option.none] ⟨Arena.empty, 0⟩ 0 rfl⟩

/-! ## Claim theorems: teardown (C7, C8, C10) -/

/-- C10: calling `ctoml_free_result` with a null result pointer is a safe
no-op — the function returns immediately, performing no destruction. -/
theorem free_result_null_noop : ctoml_free_result none = (none, []) := rfl

/-- C7: `ctoml_free_result` on a non-null result destroys exactly the arena
its handle references (none when the handle is null), and on return every
field is cleared: handle null, error message null, success false, line and
column zero, root zeroed with the none type tag. -/
theorem free_result_clears (r : CTomlParseResult) :
    (ctoml_free_result (some r)).1 = some cleared_result ∧
    (ctoml_free_result (some r)).2 = r.handle.toList ∧
    cleared_result.handle = none ∧
    cleared_result.error_message = none ∧
    cleared_result.success = false ∧
    cleared_result.error_line = 0 ∧
    cleared_result.error_column = 0 ∧
    cleared_result.root = noneNode := by
  cases hr : r.handle <;>
    simp [ctoml_free_result, hr, cleared_result, noneNode]

/-- C8: teardown is idempotent — after one `ctoml_free_result` call the
result has success false and a null handle, and a second call destroys no
arena (the handle branch is not taken) and leaves the same cleared state. -/
theorem free_result_idempotent (r : CTomlParseResult) :
    ∃ r₁, (ctoml_free_result (some r)).1 = some r₁ ∧
      r₁.success = false ∧ r₁.handle = none ∧
      ctoml_free_result (some r₁) = (some r₁, []) := by
  refine ⟨cleared_result, ?_, rfl, rfl, rfl⟩
  cases hr : r.handle <;> simp [ctoml_free_result, hr]

/-! ## Claim theorems: arena allocation (C2) -/

/-- C2 (counterexample): the allocation is not zero-initialized.  With memory
available, `alloc_nodes 1` on a fresh arena returns a block whose single cell
is still indeterminate (`malloc` was used), not the zeroed
`CTOML_NONE` node that zero-initialized storage would hold. -/
theorem alloc_nodes_not_zero_initialized :
    (alloc_nodes fullMemory 1 ⟨Arena.empty, 0⟩).1 = .ok (some 0) ∧
    cellN (alloc_nodes fullMemory 1 ⟨Arena.empty, 0⟩).2.arena 0 0 =
      some Option.none ∧
    (some (Option.none : Option CTomlNode)) ≠ some (some noneNode) := by
  refine ⟨rfl, rfl, by simp⟩

/-- C2 (amended): for every count, `alloc_nodes` and `alloc_keys` return a
null pointer if and only if `count = 0` (in which case nothing is allocated
or tracked), and for `count > 0` — when `malloc` succeeds — they return a
block of exactly `count` cells whose contents are indeterminate (not
zero-initialized), recording the pointer in the arena's tracked-allocations
list for later bulk release. -/
theorem alloc_contract (oracle : Nat → Bool) (count : Nat) (st : ConvState)
    (h : oracle st.tick = true) :
    ((alloc_nodes oracle count st).1 = .ok none ↔ count = 0) ∧
    ((alloc_keys oracle count st).1 = .ok none ↔ count = 0) ∧
    (count = 0 →
      alloc_nodes oracle count st = (.ok none, st) ∧
      alloc_keys oracle count st = (.ok none, st)) ∧
    (count ≠ 0 →
      ∃ b st',
        alloc_nodes oracle count st = (.ok (some b), st') ∧
        st'.arena.nodeBlocks[b]? = some (List.replicate count Option.none) ∧
        st'.arena.allocations =
          st.arena.allocations ++ [AllocPtr.nodes b]) ∧
    (count ≠ 0 →
      ∃ b st',
        alloc_keys oracle count st = (.ok (some b), st') ∧
        st'.arena.keyBlocks[b]? = some (List.replicate count Option.none) ∧
        st'.arena.allocations =
          st.arena.allocations ++ [AllocPtr.keys b]) := by
  rcases Nat.eq_zero_or_pos count with hc | hc
  · subst hc
    simp [alloc_nodes, alloc_keys]
  · have hne : count ≠ 0 := by omega
    refine ⟨?_, ?_, fun h0 => absurd h0 hne, ?_, ?_⟩
    · simp [alloc_nodes, hne, h]
    · simp [alloc_keys, hne, h]
    · exact fun _ => ⟨st.arena.nodeBlocks.length,
        ⟨{ st.arena with
            nodeBlocks :=
              st.arena.nodeBlocks ++ [List.replicate count Option.none],
            allocations := st.arena.allocations ++
              [AllocPtr.nodes st.arena.nodeBlocks.length] },
          st.tick + 1⟩,
        by simp [alloc_nodes, hne, h],
        by simp [List.getElem?_concat_length],
        rfl⟩
    · exact fun _ => ⟨st.arena.keyBlocks.length,
        ⟨{ st.arena with
            keyBlocks :=
              st.arena.keyBlocks ++ [List.replicate count Option.none],
            allocations := st.arena.allocations ++
              [AllocPtr.keys st.arena.keyBlocks.length] },
          st.tick + 1⟩,
        by simp [alloc_keys, hne, h],
        by simp [List.getElem?_concat_length],
        rfl⟩

/-- C2 (witness): the amended contract at a concrete input. -/
theorem alloc_contract_witness :
    fullMemory (ConvState.mk Arena.empty 0).tick = true ∧
    (((alloc_nodes fullMemory 3 ⟨Arena.empty, 0⟩).1 = .ok none ↔ 3 = 0) ∧
     ((alloc_keys fullMemory 3 ⟨Arena.empty, 0⟩).1 = .ok none ↔ 3 = 0) ∧
     (3 = 0 →
       alloc_nodes fullMemory 3 ⟨Arena.empty, 0⟩ = (.ok none, ⟨Arena.empty, 0⟩) ∧
       alloc_keys fullMemory 3 ⟨Arena.empty, 0⟩ = (.ok none, ⟨Arena.empty, 0⟩)) ∧
     (3 ≠ 0 →
       ∃ b st',
         alloc_nodes fullMemory 3 ⟨Arena.empty, 0⟩ = (.ok (some b), st') ∧
         st'.arena.nodeBlocks[b]? = some (List.replicate 3 Option.none) ∧
         st'.arena.allocations =
           (Arena.empty).allocations ++ [AllocPtr.nodes b]) ∧
     (3 ≠ 0 →
       ∃ b st',
         alloc_keys fullMemory 3 ⟨Arena.empty, 0⟩ = (.ok (some b), st') ∧
         st'.arena.keyBlocks[b]? = some (List.replicate 3 Option.none) ∧
         st'.arena.allocations =
           (Arena.empty).allocations ++ [AllocPtr.keys b])) :=
  ⟨rfl, alloc_contract fullMemory 3 ⟨Arena.empty, 0⟩ rfl⟩

/-! ## Claim theorems: string interning (C3, C9) -/

/-- C3: a stored string round-trips exactly — `store_string` reports the
source's byte length and the bytes readable at the returned pointer are the
source bytes, embedded zero bytes included; the converted string node of
`convert_node` carries the same pointer/length pair, and the concrete value
`"a\x00b"` yields length 3 with bytes `a`, `0x00`, `b`. -/
theorem string_value_roundtrip (s : Bytes) :
    (∀ st, ∃ p st',
      store_string st s = (⟨some p, s.length⟩, st') ∧
      string_at st'.arena p = some s) ∧
    (∀ oracle st, ∃ p st',
      convert_node oracle (.str s) st =
        (.ok ⟨.CTOML_STRING, .string_value ⟨some p, s.length⟩⟩, st') ∧
      string_at st'.arena p = some s) ∧
    ((store_string ⟨Arena.empty, 0⟩ [0x61, 0x00, 0x62]).1.length = 3 ∧
      string_at (store_string ⟨Arena.empty, 0⟩ [0x61, 0x00, 0x62]).2.arena 0 =
        some [0x61, 0x00, 0x62]) := by
  refine ⟨?_, ?_, rfl, rfl⟩
  · intro st
    exact ⟨st.arena.strings.length, _, by
      have h := string_at_store_string st s
      exact Prod.ext h.1 rfl, (string_at_store_string st s).2⟩
  · intro oracle st
    refine ⟨st.arena.strings.length, (store_string st s).2, ?_, ?_⟩
    · have h := (string_at_store_string st s).1
      simp only [convert_node]
      rw [h]
    · exact (string_at_store_string st s).2

/-- C9: arena string-interning address stability — the pointer returned by a
`store_string` call still reads back the same bytes after any sequence of
later `store_string` calls (growing the store never invalidates or changes a
previously returned string). -/
theorem string_address_stability (st : ConvState) (s : Bytes)
    (ss : List Bytes) :
    ∃ p, (store_string st s).1 = ⟨some p, s.length⟩ ∧
      string_at (store_many ss (store_string st s).2).arena p = some s := by
  refine ⟨st.arena.strings.length, (string_at_store_string st s).1, ?_⟩
  exact store_many_preserves_string_at ss _ _ _ (string_at_store_string st s).2

/-! ## Claim theorems: the session's failure protocol (C5, C6) -/

/-- C5: when the external parser rejects the document with a syntax error
(and the handle construction itself succeeded), `ctoml_parse` returns
success false, an arena-owned copy of the parser's error description
(non-empty when the description is), and exactly the 1-based position the
parser reported. -/
theorem parse_error_reported (oracle : Nat → Bool) (err : ParseError)
    (hO : oracle 0 = true) (hdesc : err.description ≠ [])
    (hline : 1 ≤ err.line) (hcol : 1 ≤ err.column) :
    (ctoml_parse oracle (.error err)).success = false ∧
    (ctoml_parse oracle (.error err)).error_message = some .arena_msg ∧
    read_error_message (ctoml_parse oracle (.error err)) =
      some err.description ∧
    err.description ≠ [] ∧
    (ctoml_parse oracle (.error err)).error_line = (err.line : Int) ∧
    (ctoml_parse oracle (.error err)).error_column = (err.column : Int) ∧
    1 ≤ (ctoml_parse oracle (.error err)).error_line ∧
    1 ≤ (ctoml_parse oracle (.error err)).error_column ∧
    (ctoml_parse oracle (.error err)).root = noneNode ∧
    (ctoml_parse oracle (.error err)).handle.isSome = true := by
  have hres : ctoml_parse oracle (.error err) =
      { success := false
        root := noneNode
        error_message := some .arena_msg
        error_line := (err.line : Int)
        error_column := (err.column : Int)
        handle := some { Arena.empty with
          error_message := err.description } } := by
    simp [ctoml_parse, hO, noneNode]
  rw [hres]
  refine ⟨rfl, rfl, rfl, hdesc, rfl, rfl, ?_, ?_, rfl, rfl⟩
  · show (1 : Int) ≤ (err.line : Int)
    exact_mod_cast hline
  · show (1 : Int) ≤ (err.column : Int)
    exact_mod_cast hcol

/-- C5 (witness): the contract at a concrete rejected document (description
`"x"`, position 1:1). -/
theorem parse_error_reported_witness :
    (fullMemory 0 = true ∧
      ParseError.description ⟨[0x78], 1, 1⟩ ≠ [] ∧
      1 ≤ ParseError.line ⟨[0x78], 1, 1⟩ ∧
      1 ≤ ParseError.column ⟨[0x78], 1, 1⟩) ∧
    (ctoml_parse fullMemory (.error ⟨[0x78], 1, 1⟩)).success = false ∧
    read_error_message (ctoml_parse fullMemory (.error ⟨[0x78], 1, 1⟩)) =
      some [0x78] := by
  have h := parse_error_reported fullMemory ⟨[0x78], 1, 1⟩ rfl
    (by simp) (le_refl 1) (le_refl 1)
  exact ⟨⟨rfl, by simp, le_refl 1, le_refl 1⟩, h.1, h.2.2.1⟩

/-- C6: any internal failure of the conversion pass (a `std::bad_alloc`
thrown while allocating) is caught inside `ctoml_parse`, which returns
normally with success false, a generic non-empty diagnostic message and a
zeroed line/column; and even when `new CTomlTable` itself fails before a
handle exists, the function still returns a cleared failure result with the
static out-of-memory message. -/
theorem internal_failure_contained (oracle : Nat → Bool)
    (entries : List (Bytes × TomlNode)) (f : ConvFault) (stf : ConvState)
    (hO : oracle 0 = true)
    (hfail : convert_table oracle entries ⟨Arena.empty, 1⟩ = (.error f, stf)) :
    ((ctoml_parse oracle (.ok entries)).success = false ∧
     (ctoml_parse oracle (.ok entries)).error_line = 0 ∧
     (ctoml_parse oracle (.ok entries)).error_column = 0 ∧
     read_error_message (ctoml_parse oracle (.ok entries)) =
       some (fault_what f) ∧
     fault_what f ≠ [] ∧
     (ctoml_parse oracle (.ok entries)).root = noneNode) ∧
    (∀ (oracle₂ : Nat → Bool)
        (parsed : Except ParseError (List (Bytes × TomlNode))),
      oracle₂ 0 = false →
        (ctoml_parse oracle₂ parsed).success = false ∧
        (ctoml_parse oracle₂ parsed).error_line = 0 ∧
        (ctoml_parse oracle₂ parsed).error_column = 0 ∧
        read_error_message (ctoml_parse oracle₂ parsed) =
          some outOfMemoryMsg ∧
        (ctoml_parse oracle₂ parsed).root = noneNode) := by
  constructor
  · have hres : ctoml_parse oracle (.ok entries) =
        { success := false
          root := noneNode
          error_message := some .arena_msg
          error_line := 0
          error_column := 0
          handle := some { stf.arena with
            error_message := fault_what f } } := by
      simp [ctoml_parse, hO, hfail, noneNode]
    rw [hres]
    refine ⟨rfl, rfl, rfl, rfl, ?_, rfl⟩
    cases f
    simp [fault_what, badAllocWhat]
  · intro oracle₂ parsed h2
    have hres : ctoml_parse oracle₂ parsed =
        { success := false
          root := noneNode
          error_message := some (.literal outOfMemoryMsg)
          error_line := 0
          error_column := 0
          handle := none } := by
      simp [ctoml_parse, h2, noneNode]
    rw [hres]
    exact ⟨rfl, rfl, rfl, rfl, rfl⟩

/-- C6 (witness): a concrete run in which the first `malloc` of the
conversion pass fails (`oracle` allows only tick 0): `ctoml_parse` reports
the contained failure. -/
theorem internal_failure_contained_witness :
    ((fun n => decide (n = 0)) 0 = true ∧
      convert_table (fun n => decide (n = 0)) [([0x61], .boolean true)]
        ⟨Arena.empty, 1⟩ = (.error .badAlloc, ⟨Arena.empty, 2⟩)) ∧
    (ctoml_parse (fun n => decide (n = 0))
        (.ok [([0x61], .boolean true)])).success = false ∧
    (ctoml_parse (fun n => decide (n = 0))
        (.ok [([0x61], .boolean true)])).error_line = 0 := by
  have h := internal_failure_contained (fun n => decide (n = 0))
    [([0x61], .boolean true)] .badAlloc ⟨Arena.empty, 2⟩ (by decide)
    (by simp [convert_table, alloc_keys])
  exact ⟨⟨by decide, by simp [convert_table, alloc_keys]⟩, h.1.1, h.1.2.1⟩

end CToml
